import Mathlib

/-!
Shallow embedding of `src/telpy.py` (a minimal telnet client).

The connection is modelled as a script: a list of chunks, where each chunk
is the byte payload (`List Nat`) returned by one `conn.recv(1024)` call.
Every function that performs network I/O is embedded as a pure function of
the script; its outcome records the payloads passed to `conn.send` (in
order) and the number of `recv` calls performed.  `sys.exit` and uncaught
`IndexError` are distinct terminal outcomes; running out of scripted
chunks (where the real code would block) is the `blocked` outcome.
-/

namespace Telpy

/-- Control codes from the `commands` table built in
`TelnetConnection.__init__` (src/telpy.py lines 24-41).  Only the codes the
negotiation logic consults are named here. -/
def WILL : Nat := 251

/-- Code of the WONT verb in the `commands` table. -/
def WONT : Nat := 252

/-- Code of the DO verb in the `commands` table. -/
def DO : Nat := 253

/-- Code of the DONT verb in the `commands` table. -/
def DONT : Nat := 254

/-- Code of the IAC escape byte in the `commands` table. -/
def IAC : Nat := 255

/-- ASCII bytes of a string, modelling the Python ascii-encoding
conversion `bytes(s, ...)` applied to the ASCII-only literals used by the
client. -/
def asciiBytes (s : String) : List Nat :=
  s.data.map Char.toNat

/-- The `prompts` string set in `__init__`: the five characters `:>$#%`. -/
def prompts : String := ":>$#%"

/-- Iterating the `prompts` string in Python yields its characters as
one-character strings; this is the phrase list `expect` sees when `write`
calls `self.expect(self.prompts)`. -/
def promptList : List String :=
  prompts.data.map (fun c => String.mk [c])

/-- The `expected` list built in `login` (lines 298-299): the failure
phrase `ncorrect` followed by the prompt characters. -/
def loginExpected : List String :=
  "ncorrect" :: promptList

/-- Does `needle` occur at the start of `hay`?  Helper for the model of
Python bytes containment (`phrase in data`). -/
def startsWith : List Nat → List Nat → Bool
  | [], _ => true
  | _ :: _, [] => false
  | a :: as, b :: bs => a == b && startsWith as bs

/-- Does `needle` occur contiguously anywhere in `hay`?  Models the Python
expression `needle in hay` on `bytes` values. -/
def hasSub (needle : List Nat) : List Nat → Bool
  | [] => needle.isEmpty
  | b :: rest => startsWith needle (b :: rest) || hasSub needle rest

/-- Model of `handle_command(code, val)` (lines 137-172).  Python either
returns the 3-byte response or calls `sys.exit()`; the exit is `none`. -/
def handle_command (code val : Nat) : Option (List Nat) :=
  if code = WILL then some [IAC, DONT, val]
  else if code = DO then some [IAC, WONT, val]
  else none

/-- Outcome of one `negotiate(data)` call.  `ok` is normal completion of
the scan loop, `fatal` is the `sys.exit()` inside `handle_command` on an
unhandled verb, `err` is an uncaught `IndexError` from reading
`data[pos+1]` or `data[pos+2]` past the end of the chunk.  Each carries
the list of response payloads sent before that point. -/
inductive NegOutcome where
  | ok (sent : List (List Nat))
  | fatal (sent : List (List Nat))
  | err (sent : List (List Nat))
deriving DecidableEq, Repr

/-- Prepend one sent response to a scan outcome. -/
def consSent (r : List Nat) : NegOutcome → NegOutcome
  | .ok s => .ok (r :: s)
  | .fatal s => .fatal (r :: s)
  | .err s => .err (r :: s)

/-- The scan loop of `negotiate` (lines 184-202), phrased on the suffix of
the chunk starting at the current `pos`.  The loop makes all of its
accesses at offsets 0, 1, 2 of that suffix:

* `data[pos] != IAC` → `pos += 1` → recurse on the tail;
* `data[pos+1] == IAC` (doubled escape) → `pos += 1` → recurse on the
  suffix starting at the second `IAC`;
* otherwise `val = data[pos+2]`, `resp = handle_command(code, val)` is
  sent and `pos += 2` → recurse on the suffix starting at the `val` byte;
* `data[pos+1]` or `data[pos+2]` out of range → `IndexError`. -/
def negScan : List Nat → NegOutcome
  | [] => .ok []
  | b :: [] =>
    -- a lone final byte: a non-IAC byte ends the loop normally; a final
    -- IAC reads `data[pos+1]` out of range
    if b ≠ IAC then .ok [] else .err []
  | b :: code :: rest2 =>
    if b ≠ IAC then negScan (code :: rest2)
    else if code = IAC then negScan (code :: rest2)
    else
      match rest2 with
      | [] => .err []
      | val :: _ =>
        match handle_command code val with
        | none => .fatal []
        | some resp => consSent resp (negScan rest2)

/-- The scan loop of `negotiate` resumed at position `pos` of the chunk:
scanning the suffix `data.drop pos`. -/
def negotiateFrom (data : List Nat) (pos : Nat) : NegOutcome :=
  negScan (data.drop pos)

/-- Model of `negotiate(data)` (lines 174-202): the scan starting at
`pos = 0`. -/
def negotiate (data : List Nat) : NegOutcome :=
  negotiateFrom data 0

/-- Returns `true` exactly when the scan outcome ends the process (the
`sys.exit()` on an unhandled verb, or an uncaught `IndexError`). -/
def endsProcess : NegOutcome → Bool
  | .ok _ => false
  | .fatal _ => true
  | .err _ => true

/-- Model of `match_phrase(phrases, data)` (lines 255-272), with the index
accumulated explicitly.  The Python no-match value `(-1, None)` is
`none`. -/
def matchPhraseAux (data : List Nat) : List String → Nat → Option (Nat × List Nat)
  | [], _ => none
  | p :: rest, i =>
    if hasSub (asciiBytes p) data then some (i, asciiBytes p)
    else matchPhraseAux data rest (i + 1)

/-- Model of `match_phrase(phrases, data)`: the first phrase (by list
index) whose ASCII bytes occur in `data`, together with its index. -/
def match_phrase (phrases : List String) (data : List Nat) : Option (Nat × List Nat) :=
  matchPhraseAux data phrases 0

/-- Outcome of one `read_until(phrase)` call.  `done` is the `break` on a
phrase match; `fatalEmpty` is the `sys.exit(1)` on an empty chunk;
`fatalVerb`/`err` propagate a terminal `negotiate` outcome; `blocked`
means the script ran out (the real code would block in `recv`).  Each
outcome carries the sent payloads and the number of `recv` calls. -/
inductive RUOutcome where
  | done (sent : List (List Nat)) (recvs : Nat)
  | fatalEmpty (sent : List (List Nat)) (recvs : Nat)
  | fatalVerb (sent : List (List Nat)) (recvs : Nat)
  | err (sent : List (List Nat)) (recvs : Nat)
  | blocked (sent : List (List Nat)) (recvs : Nat)
deriving DecidableEq, Repr

/-- Account for one loop iteration of `read_until`: the sends `s` made by
the `negotiate` call of this iteration come first, and one more `recv`
happened. -/
def stepRU (s : List (List Nat)) : RUOutcome → RUOutcome
  | .done s2 r => .done (s ++ s2) (r + 1)
  | .fatalEmpty s2 r => .fatalEmpty (s ++ s2) (r + 1)
  | .fatalVerb s2 r => .fatalVerb (s ++ s2) (r + 1)
  | .err s2 r => .err (s ++ s2) (r + 1)
  | .blocked s2 r => .blocked (s ++ s2) (r + 1)

/-- The loop of `read_until` (lines 215-225) over the scripted chunks:
recv a chunk; exit fatally if it is empty; break if the phrase occurs in
it; otherwise negotiate over it and loop. -/
def readUntilRun (phrase : List Nat) : List (List Nat) → RUOutcome
  | [] => .blocked [] 0
  | data :: rest =>
    if data = [] then .fatalEmpty [] 1
    else if hasSub phrase data then .done [] 1
    else
      match negotiate data with
      | .ok s => stepRU s (readUntilRun phrase rest)
      | .fatal s => .fatalVerb s 1
      | .err s => .err s 1

/-- Model of `read_until(phrase)` (lines 204-225): the phrase string is
converted to ASCII bytes and then the loop runs. -/
def read_until (phrase : String) (chunks : List (List Nat)) : RUOutcome :=
  readUntilRun (asciiBytes phrase) chunks

/-- Outcome of one `expect(phrases)` call.  `matched i p` is the return of
`(i, p)` when `match_phrase` found phrase `p` at index `i`; the remaining
constructors are as in `RUOutcome`. -/
inductive ExpOutcome where
  | matched (i : Nat) (p : List Nat) (sent : List (List Nat)) (recvs : Nat)
  | fatalEmpty (sent : List (List Nat)) (recvs : Nat)
  | fatalVerb (sent : List (List Nat)) (recvs : Nat)
  | err (sent : List (List Nat)) (recvs : Nat)
  | blocked (sent : List (List Nat)) (recvs : Nat)
deriving DecidableEq, Repr

/-- Account for one loop iteration of `expect`, as `stepRU` does for
`read_until`. -/
def stepExp (s : List (List Nat)) : ExpOutcome → ExpOutcome
  | .matched i p s2 r => .matched i p (s ++ s2) (r + 1)
  | .fatalEmpty s2 r => .fatalEmpty (s ++ s2) (r + 1)
  | .fatalVerb s2 r => .fatalVerb (s ++ s2) (r + 1)
  | .err s2 r => .err (s ++ s2) (r + 1)
  | .blocked s2 r => .blocked (s ++ s2) (r + 1)

/-- The loop of `expect(phrases)` (lines 240-253) over the scripted
chunks: recv a chunk; exit fatally if empty; return the result of
`match_phrase` if it found a phrase; otherwise negotiate and loop. -/
def expectRun (phrases : List String) : List (List Nat) → ExpOutcome
  | [] => .blocked [] 0
  | data :: rest =>
    if data = [] then .fatalEmpty [] 1
    else
      match match_phrase phrases data with
      | some (i, p) => .matched i p [] 1
      | none =>
        match negotiate data with
        | .ok s => stepExp s (expectRun phrases rest)
        | .fatal s => .fatalVerb s 1
        | .err s => .err s 1

/-- Outcome of the final phase of `login` (lines 298-308): `done b` is
normal completion with `self.logged_in` equal to `b` afterwards (no
exception); the other constructors propagate the terminal outcomes of the
inner `expect` call. -/
inductive LoginOutcome where
  | done (loggedIn : Bool) (sent : List (List Nat)) (recvs : Nat)
  | fatalEmpty (sent : List (List Nat)) (recvs : Nat)
  | fatalVerb (sent : List (List Nat)) (recvs : Nat)
  | err (sent : List (List Nat)) (recvs : Nat)
  | blocked (sent : List (List Nat)) (recvs : Nat)
deriving DecidableEq, Repr

/-- The final phrase-matching step of `login` (lines 298-308): run
`expect` on the `expected` list; if the matched index is `> 0` set
`logged_in` to `True`, otherwise print the failure message and leave
`logged_in` unchanged. -/
def loginFinal (loggedIn : Bool) (chunks : List (List Nat)) : LoginOutcome :=
  match expectRun loginExpected chunks with
  | .matched i _ s r => .done (if i > 0 then true else loggedIn) s r
  | .fatalEmpty s r => .fatalEmpty s r
  | .fatalVerb s r => .fatalVerb s r
  | .err s r => .err s r
  | .blocked s r => .blocked s r

/-- Status of a `write(cmd)` call. -/
inductive WriteStatus where
  | ok
  | notLoggedIn
  | fatalEmpty
  | fatalVerb
  | err
  | blocked
deriving DecidableEq, Repr

/-- Full observable effect of a `write(cmd)` call: what was sent, how many
`recv` calls happened, the `output` variable captured by the final recv
(if reached), the Python return value of `write` (the method has no
`return` statement, so it is always `none`), and the value of
`self.logged_in` afterwards. -/
structure WriteRes where
  status : WriteStatus
  sent : List (List Nat)
  recvs : Nat
  captured : Option (List Nat)
  ret : Option (List Nat)
  loggedInAfter : Bool
deriving DecidableEq, Repr

/-- Model of `write(cmd)` (lines 310-328).  When logged in: run
`self.expect(self.prompts)`; after `expect` returns (having consumed
`k` chunks), send the command with a newline appended and capture one
more recv as `output`.  When not logged in: print the error and do nothing.  In
both branches `self.logged_in` is never assigned. -/
def write (loggedIn : Bool) (cmd : String) (chunks : List (List Nat)) : WriteRes :=
  if loggedIn then
    match expectRun promptList chunks with
    | .matched _ _ s k =>
      match (chunks.drop k).head? with
      | some out =>
        { status := .ok, sent := s ++ [asciiBytes (cmd ++ "\n")], recvs := k + 1,
          captured := some out, ret := none, loggedInAfter := loggedIn }
      | none =>
        { status := .blocked, sent := s ++ [asciiBytes (cmd ++ "\n")], recvs := k,
          captured := none, ret := none, loggedInAfter := loggedIn }
    | .fatalEmpty s k =>
      { status := .fatalEmpty, sent := s, recvs := k,
        captured := none, ret := none, loggedInAfter := loggedIn }
    | .fatalVerb s k =>
      { status := .fatalVerb, sent := s, recvs := k,
        captured := none, ret := none, loggedInAfter := loggedIn }
    | .err s k =>
      { status := .err, sent := s, recvs := k,
        captured := none, ret := none, loggedInAfter := loggedIn }
    | .blocked s k =>
      { status := .blocked, sent := s, recvs := k,
        captured := none, ret := none, loggedInAfter := loggedIn }
  else
    { status := .notLoggedIn, sent := [], recvs := 0,
      captured := none, ret := none, loggedInAfter := loggedIn }

/-! Theorems.  Claim ids refer to the frozen claim list for this
repository. -/

/-- Processing one full control sequence at the head of the scan suffix:
the response dictated by `handle_command` is sent and the scan continues
on the suffix that still begins with the option-id byte. -/
theorem negScan_cons_verb (code val : Nat) (tail : List Nat)
    (hv : code = WILL ∨ code = DO) :
    negScan (IAC :: code :: val :: tail) =
      consSent (if code = WILL then [IAC, DONT, val] else [IAC, WONT, val])
        (negScan (val :: tail)) := by
  rcases hv with h | h <;> subst h <;> rfl

/-- Claim C1: for the option verbs WILL and DO and any option-id byte,
`handle_command` returns exactly the 3-byte response `[IAC, DONT, id]`
for WILL and `[IAC, WONT, id]` for DO. -/
theorem C1_handle_command_responses (val : Nat) :
    handle_command WILL val = some [IAC, DONT, val] ∧
    handle_command DO val = some [IAC, WONT, val] :=
  ⟨rfl, rfl⟩

/-- Claim C4: after the scan loop of `negotiate` processes a 3-byte
control sequence `[IAC, verb, id]`, for a handled verb, at position `pos`
of the chunk, it resumes at position `pos + 2` (not `pos + 3`), so the
option-id byte is re-examined as if it were new data. -/
theorem C4_scan_resumes_at_pos_plus_two (data : List Nat) (pos code val : Nat)
    (h0 : data[pos]? = some IAC) (h1 : data[pos + 1]? = some code)
    (h2 : data[pos + 2]? = some val) (hv : code = WILL ∨ code = DO) :
    negotiateFrom data pos =
      consSent (if code = WILL then [IAC, DONT, val] else [IAC, WONT, val])
        (negotiateFrom data (pos + 2)) := by
  obtain ⟨l0, g0⟩ := List.getElem?_eq_some.mp h0
  obtain ⟨l1, g1⟩ := List.getElem?_eq_some.mp h1
  obtain ⟨l2, g2⟩ := List.getElem?_eq_some.mp h2
  have e0 : data.drop pos = IAC :: data.drop (pos + 1) := by
    rw [List.drop_eq_getElem_cons l0, g0]
  have e1 : data.drop (pos + 1) = code :: data.drop (pos + 2) := by
    rw [List.drop_eq_getElem_cons l1, g1]
  have e2 : data.drop (pos + 2) = val :: data.drop (pos + 3) := by
    rw [List.drop_eq_getElem_cons l2, g2]
  simp only [negotiateFrom]
  rw [e0, e1, e2, negScan_cons_verb code val _ hv]

/-- Witness for C4 at a concrete chunk: the sequence `[IAC, WILL, 7]`
starting at position 0 is answered with `[IAC, DONT, 7]` and the scan
resumes at position 2 (the option-id byte 7). -/
theorem C4_witness :
    negotiateFrom [255, 251, 7, 255, 253, 9] 0 =
      consSent [255, 254, 7] (negotiateFrom [255, 251, 7, 255, 253, 9] 2) :=
  C4_scan_resumes_at_pos_plus_two [255, 251, 7, 255, 253, 9] 0 251 7
    (by decide) (by decide) (by decide) (Or.inl rfl)

/-- Claim C10: when the byte after an escape byte is itself IAC, the scan
sends no response for the pair, does not end the process there, and
resumes exactly one byte further, at the second IAC. -/
theorem C10_doubled_escape_skips_one (data : List Nat) (pos : Nat)
    (h0 : data[pos]? = some IAC) (h1 : data[pos + 1]? = some IAC) :
    negotiateFrom data pos = negotiateFrom data (pos + 1) := by
  obtain ⟨l0, g0⟩ := List.getElem?_eq_some.mp h0
  obtain ⟨l1, g1⟩ := List.getElem?_eq_some.mp h1
  have e0 : data.drop pos = IAC :: data.drop (pos + 1) := by
    rw [List.drop_eq_getElem_cons l0, g0]
  have e1 : data.drop (pos + 1) = IAC :: data.drop (pos + 2) := by
    rw [List.drop_eq_getElem_cons l1, g1]
  simp only [negotiateFrom]
  rw [e0, e1]
  rfl

/-- Witness for C10 at a concrete chunk: the doubled escape at positions
0 and 1 of `[IAC, IAC, WILL, 5]` is skipped by one byte. -/
theorem C10_witness :
    negotiateFrom [255, 255, 251, 5] 0 = negotiateFrom [255, 255, 251, 5] 1 :=
  C10_doubled_escape_skips_one [255, 255, 251, 5] 0 (by decide) (by decide)

/-- Claim C5: when the chunk received by the read-until-phrase loop
(`read_until` or `expect`) is empty, the outcome is the fatal
`sys.exit(1)` path, reached once, with no bytes sent from that point on
and the rest of the script never touched. -/
theorem C5_empty_chunk_is_fatal (phrase : String) (phrases : List String)
    (rest : List (List Nat)) :
    read_until phrase ([] :: rest) = RUOutcome.fatalEmpty [] 1 ∧
    expectRun phrases ([] :: rest) = ExpOutcome.fatalEmpty [] 1 :=
  ⟨rfl, rfl⟩

/-- Claim C7: calling `write` with any command while `logged_in` is false
reports the error, sends nothing, performs no `recv`, leaves the session
flag unchanged, and completes without raising. -/
theorem C7_write_unauthenticated_noop (cmd : String) (chunks : List (List Nat)) :
    write false cmd chunks =
      { status := .notLoggedIn, sent := [], recvs := 0,
        captured := none, ret := none, loggedInAfter := false } :=
  rfl

/-- Scanning a chunk whose head byte is not the escape byte advances by
one. -/
theorem negScan_cons_other (b code : Nat) (rest2 : List Nat) (hb : b ≠ IAC) :
    negScan (b :: code :: rest2) = negScan (code :: rest2) := by
  simp [negScan, hb]

/-- Scanning a doubled escape advances by one, onto the second IAC. -/
theorem negScan_cons_doubled (code : Nat) (rest2 : List Nat)
    (hcode : code = IAC) :
    negScan (IAC :: code :: rest2) = negScan (code :: rest2) := by
  subst hcode
  rfl

/-- An escape byte followed by a lone non-IAC verb at the end of the chunk
raises `IndexError` reading the option-id byte. -/
theorem negScan_two_err (code : Nat) (hcode : code ≠ IAC) :
    negScan [IAC, code] = NegOutcome.err [] := by
  simp [negScan, hcode]

/-- An escape byte followed by a verb that `handle_command` does not
handle ends in the `sys.exit` of `handle_command`. -/
theorem negScan_cons_unhandled (code val : Nat) (tail : List Nat)
    (hcode : code ≠ IAC) (hhc : handle_command code val = none) :
    negScan (IAC :: code :: val :: tail) = NegOutcome.fatal [] := by
  simp [negScan, hcode, hhc]

/-- If the scan loop of `negotiate` completes a chunk normally, then every
escape byte of the chunk that is followed by another byte is followed by
WILL, DO, or IAC: any other verb would have ended the process first. -/
theorem negScan_ok_verbs :
    ∀ (n : Nat) (l : List Nat), l.length ≤ n → ∀ s, negScan l = .ok s →
      ∀ p c, l[p]? = some IAC → l[p + 1]? = some c →
        c = WILL ∨ c = DO ∨ c = IAC := by
  intro n
  induction n with
  | zero =>
    intro l hl s hok p c hp hc
    have hnil : l = [] := List.eq_nil_of_length_eq_zero (Nat.le_zero.mp hl)
    subst hnil
    simp at hp
  | succ n ih =>
    intro l hl s hok p c hp hc
    rcases l with _ | ⟨b, _ | ⟨code, rest2⟩⟩
    · simp at hp
    · cases p with
      | zero => simp at hc
      | succ q => simp at hp
    · by_cases hb : b = IAC
      · subst hb
        by_cases hcode : code = IAC
        · rw [negScan_cons_doubled code rest2 hcode] at hok
          cases p with
          | zero =>
            rw [List.getElem?_cons_succ, List.getElem?_cons_zero] at hc
            injection hc with hc
            subst hc
            exact Or.inr (Or.inr hcode)
          | succ q =>
            rw [List.getElem?_cons_succ] at hp hc
            exact ih (code :: rest2) (by simp at hl ⊢; omega) s hok q c hp hc
        · rcases rest2 with _ | ⟨val, tail⟩
          · rw [negScan_two_err code hcode] at hok
            simp at hok
          · rcases hhc : handle_command code val with _ | resp
            · rw [negScan_cons_unhandled code val tail hcode hhc] at hok
              simp at hok
            · have hcw : code = WILL ∨ code = DO := by
                by_cases h1 : code = WILL
                · exact Or.inl h1
                · by_cases h2 : code = DO
                  · exact Or.inr h2
                  · simp [handle_command, h1, h2] at hhc
              rw [negScan_cons_verb code val tail hcw] at hok
              have hrec : ∃ s2, negScan (val :: tail) = NegOutcome.ok s2 := by
                cases hr : negScan (val :: tail) with
                | ok s2 => exact ⟨s2, rfl⟩
                | fatal s2 => rw [hr] at hok; simp [consSent] at hok
                | err s2 => rw [hr] at hok; simp [consSent] at hok
              obtain ⟨s2, hrec⟩ := hrec
              cases p with
              | zero =>
                rw [List.getElem?_cons_succ, List.getElem?_cons_zero] at hc
                injection hc with hc
                subst hc
                tauto
              | succ q =>
                cases q with
                | zero =>
                  rw [List.getElem?_cons_succ, List.getElem?_cons_zero] at hp
                  injection hp with hp
                  exact absurd hp hcode
                | succ q2 =>
                  rw [List.getElem?_cons_succ, List.getElem?_cons_succ] at hp hc
                  exact ih (val :: tail) (by simp at hl ⊢; omega) s2 hrec q2 c hp hc
      · rw [negScan_cons_other b code rest2 hb] at hok
        cases p with
        | zero =>
          rw [List.getElem?_cons_zero] at hp
          injection hp with hp
          exact absurd hp hb
        | succ q =>
          rw [List.getElem?_cons_succ] at hp hc
          exact ih (code :: rest2) (by simp at hl ⊢; omega) s hok q c hp hc

/-- Claim C3 counterexample: in the chunk `[IAC, IAC, WILL, 5]` the
escape byte at position 0 is followed by the byte 255, a verb other than
WILL and DO, yet `negotiate` completes the chunk normally (answering the
later WILL sequence) instead of ending the process. -/
theorem C3_counterexample :
    [255, 255, 251, 5][0]? = some IAC ∧ [255, 255, 251, 5][1]? = some 255 ∧
    (255 : Nat) ≠ WILL ∧ (255 : Nat) ≠ DO ∧
    negotiate [255, 255, 251, 5] = NegOutcome.ok [[255, 254, 5]] ∧
    endsProcess (negotiate [255, 255, 251, 5]) = false := by
  decide

/-- Claim C3 (amended): whenever the scanned chunk holds an escape byte
IAC at some position whose following byte is any verb other than WILL,
DO, or IAC itself, `negotiate` ends the process: either the
unhandled-verb `sys.exit` inside `handle_command`, or an uncaught
`IndexError` when the option-id byte is missing. -/
theorem C3_unhandled_verb_ends_process (data : List Nat) (p c : Nat)
    (hp : data[p]? = some IAC) (hc : data[p + 1]? = some c)
    (hW : c ≠ WILL) (hD : c ≠ DO) (hI : c ≠ IAC) :
    endsProcess (negotiate data) = true := by
  cases hout : negotiate data with
  | ok s =>
    have hok : negScan data = NegOutcome.ok s := by
      simpa [negotiate, negotiateFrom] using hout
    rcases negScan_ok_verbs data.length data le_rfl s hok p c hp hc with h | h | h
    · exact absurd h hW
    · exact absurd h hD
    · exact absurd h hI
  | fatal s => rfl
  | err s => rfl

/-- Witness for the amended C3 at a concrete chunk: the sequence
`[IAC, 240, 7]` carries the unhandled verb 240 and the scan ends the
process. -/
theorem C3_witness :
    endsProcess (negotiate [255, 240, 7]) = true :=
  C3_unhandled_verb_ends_process [255, 240, 7] 0 240 (by decide) (by decide)
    (by decide) (by decide) (by decide)

/-- Claim C2: when the final phrase-matching step of `login` obtains a
match at index `i` of the expected list, the step completes normally (no
exception) and `logged_in` is set to true exactly when `i > 0`; on index
0 it keeps its previous value `false`. -/
theorem C2_login_flag_iff_positive_index (chunks : List (List Nat)) (i : Nat)
    (p : List Nat) (s : List (List Nat)) (r : Nat)
    (h : expectRun loginExpected chunks = .matched i p s r) :
    loginFinal false chunks = .done (decide (0 < i)) s r := by
  simp only [loginFinal]
  rw [h]
  by_cases hi : 0 < i <;> simp [hi]

/-- Witness for C2 at a concrete script: a chunk containing the failure
phrase gives match index 0 and the flag stays false. -/
theorem C2_witness :
    expectRun loginExpected [asciiBytes "ncorrect"] =
      ExpOutcome.matched 0 (asciiBytes "ncorrect") [] 1 ∧
    loginFinal false [asciiBytes "ncorrect"] = LoginOutcome.done false [] 1 :=
  ⟨by decide, C2_login_flag_iff_positive_index [asciiBytes "ncorrect"] 0
      (asciiBytes "ncorrect") [] 1 (by decide)⟩

/-- A successful `matchPhraseAux` result is a phrase occurring in the
scanned chunk. -/
theorem matchPhraseAux_some_sub (data : List Nat) :
    ∀ (phrases : List String) (base i : Nat) (p : List Nat),
      matchPhraseAux data phrases base = some (i, p) → hasSub p data = true := by
  intro phrases
  induction phrases with
  | nil => intro base i p h; simp [matchPhraseAux] at h
  | cons q rest ih =>
    intro base i p h
    simp only [matchPhraseAux] at h
    cases hq : hasSub (asciiBytes q) data with
    | true =>
      rw [hq] at h
      simp only [if_true, Option.some.injEq, Prod.mk.injEq] at h
      rw [← h.2]
      exact hq
    | false =>
      rw [hq] at h
      simp only [Bool.false_eq_true, if_false] at h
      exact ih (base + 1) i p h

/-- A successful `match_phrase` result is a phrase occurring in the
scanned chunk. -/
theorem match_phrase_some_sub (phrases : List String) (data : List Nat)
    (i : Nat) (p : List Nat) (h : match_phrase phrases data = some (i, p)) :
    hasSub p data = true :=
  matchPhraseAux_some_sub data phrases 0 i p h

/-- When `expect` returns a match, the matched phrase occurs inside one
single received chunk of the script. -/
theorem expectRun_matched_mem (phrases : List String) :
    ∀ (chunks : List (List Nat)) (i : Nat) (p : List Nat)
      (s : List (List Nat)) (r : Nat),
      expectRun phrases chunks = .matched i p s r →
      ∃ c ∈ chunks, hasSub p c = true := by
  intro chunks
  induction chunks with
  | nil => intro i p s r h; simp [expectRun] at h
  | cons data rest ih =>
    intro i p s r h
    simp only [expectRun] at h
    by_cases hd : data = ([] : List Nat)
    · rw [if_pos hd] at h; simp at h
    · rw [if_neg hd] at h
      cases hm : match_phrase phrases data with
      | some pr =>
        obtain ⟨mi, mp⟩ := pr
        rw [hm] at h
        cases h
        exact ⟨data, by simp, match_phrase_some_sub phrases data i p hm⟩
      | none =>
        rw [hm] at h
        cases hn : negotiate data with
        | ok s2 =>
          rw [hn] at h
          cases he : expectRun phrases rest with
          | matched i2 p2 s3 r2 =>
            rw [he] at h
            simp only [stepExp] at h
            cases h
            obtain ⟨c, hc, hsub⟩ := ih i p s3 r2 he
            exact ⟨c, by simp [hc], hsub⟩
          | fatalEmpty s3 r2 => rw [he] at h; simp [stepExp] at h
          | fatalVerb s3 r2 => rw [he] at h; simp [stepExp] at h
          | err s3 r2 => rw [he] at h; simp [stepExp] at h
          | blocked s3 r2 => rw [he] at h; simp [stepExp] at h
        | fatal s2 => rw [hn] at h; simp at h
        | err s2 => rw [hn] at h; simp at h

/-- Claim C6: phrase matching in the read-until-phrase loop sees one
received chunk at a time, so a target phrase occurring in the stream only
split across consecutive chunks (no single chunk containing it whole) is
never returned as a match by `expect`. -/
theorem C6_no_cross_chunk_match (phrases : List String)
    (chunks : List (List Nat)) (t : List Nat)
    (hsplit : ∀ c ∈ chunks, hasSub t c = false)
    (i : Nat) (s : List (List Nat)) (r : Nat) :
    expectRun phrases chunks ≠ .matched i t s r := by
  intro h
  obtain ⟨c, hc, hsub⟩ := expectRun_matched_mem phrases chunks i t s r h
  rw [hsplit c hc] at hsub
  simp at hsub

/-- Witness for C6: the phrase `ab` occurs in the concatenation of the
chunks `[97]` and `[98]` but in neither chunk alone, and `expect` does
not match it. -/
theorem C6_witness :
    hasSub (asciiBytes "ab") ([97] ++ [98]) = true ∧
    expectRun ["ab"] [[97], [98]] ≠ ExpOutcome.matched 0 (asciiBytes "ab") [] 2 :=
  ⟨by decide, C6_no_cross_chunk_match ["ab"] [[97], [98]] (asciiBytes "ab")
      (by decide) 0 [] 2⟩

/-- The accumulator form of the smallest-index property of
`matchPhraseAux`. -/
theorem matchPhraseAux_min (data : List Nat) :
    ∀ (phrases : List String) (base i : Nat) (q : String),
      phrases[i]? = some q →
      hasSub (asciiBytes q) data = true →
      (∀ j pj, j < i → phrases[j]? = some pj →
         hasSub (asciiBytes pj) data = false) →
      matchPhraseAux data phrases base = some (base + i, asciiBytes q) := by
  intro phrases
  induction phrases with
  | nil => intro base i q hget _ _; simp at hget
  | cons q0 rest ih =>
    intro base i q hget hsub hmin
    cases i with
    | zero =>
      simp only [List.getElem?_cons_zero, Option.some.injEq] at hget
      subst hget
      simp [matchPhraseAux, hsub]
    | succ i2 =>
      have hq0 : hasSub (asciiBytes q0) data = false :=
        hmin 0 q0 (Nat.succ_pos i2) (by simp)
      have hget2 : rest[i2]? = some q := by simpa using hget
      have hmin2 : ∀ j pj, j < i2 → rest[j]? = some pj →
          hasSub (asciiBytes pj) data = false :=
        fun j pj hj hg => hmin (j + 1) pj (by omega) (by simpa using hg)
      have hrec := ih (base + 1) i2 q hget2 hsub hmin2
      simp only [matchPhraseAux, hq0, Bool.false_eq_true, if_false]
      rw [show base + (i2 + 1) = (base + 1) + i2 by omega]
      exact hrec

/-- The smallest matching list index determines the result of
`match_phrase`. -/
theorem match_phrase_min (phrases : List String) (data : List Nat) (i : Nat)
    (q : String) (hget : phrases[i]? = some q)
    (hsub : hasSub (asciiBytes q) data = true)
    (hmin : ∀ j pj, j < i → phrases[j]? = some pj →
       hasSub (asciiBytes pj) data = false) :
    match_phrase phrases data = some (i, asciiBytes q) := by
  have := matchPhraseAux_min data phrases 0 i q hget hsub hmin
  simpa [match_phrase] using this

/-- Claim C9: `match_phrase` returns the pair of the smallest list index
whose phrase occurs anywhere in the chunk, together with that phrase as
bytes; in particular a chunk containing both the failure phrase
`ncorrect` (index 0) and a prompt character makes `match_phrase` return
index 0 on the login list, and the final step of `login` then treats it
as a failure, leaving the flag false. -/
theorem C9_match_phrase_smallest_index :
    (∀ (phrases : List String) (data : List Nat) (i : Nat) (q : String),
       phrases[i]? = some q →
       hasSub (asciiBytes q) data = true →
       (∀ j pj, j < i → phrases[j]? = some pj →
          hasSub (asciiBytes pj) data = false) →
       match_phrase phrases data = some (i, asciiBytes q)) ∧
    (∀ data : List Nat,
       hasSub (asciiBytes "ncorrect") data = true →
       hasSub (asciiBytes "$") data = true →
       match_phrase loginExpected data = some (0, asciiBytes "ncorrect") ∧
       loginFinal false [data] = LoginOutcome.done false [] 1) := by
  constructor
  · exact match_phrase_min
  · intro data hnc _
    have hm : match_phrase loginExpected data = some (0, asciiBytes "ncorrect") :=
      match_phrase_min loginExpected data 0 "ncorrect" rfl hnc
        (fun j pj hj _ => absurd hj (Nat.not_lt_zero j))
    have hdne : data ≠ ([] : List Nat) := by
      intro hd
      rw [hd] at hnc
      exact absurd hnc (by decide)
    have hexp : expectRun loginExpected [data] =
        ExpOutcome.matched 0 (asciiBytes "ncorrect") [] 1 := by
      simp only [expectRun]
      rw [if_neg hdne, hm]
    refine ⟨hm, ?_⟩
    simp only [loginFinal]
    rw [hexp]
    rfl

/-- Witness for C9: a phrase list whose smallest matching index is 1, and
a login chunk holding both `ncorrect` and a prompt character. -/
theorem C9_witness :
    match_phrase ["zz", "a"] [97, 98] = some (1, asciiBytes "a") ∧
    (match_phrase loginExpected (asciiBytes "assword ncorrect $ ") =
       some (0, asciiBytes "ncorrect") ∧
     loginFinal false [asciiBytes "assword ncorrect $ "] =
       LoginOutcome.done false [] 1) :=
  ⟨C9_match_phrase_smallest_index.1 ["zz", "a"] [97, 98] 1 "a" (by decide)
      (by decide)
      (by
        intro j pj hj hg
        have hj0 : j = 0 := by omega
        subst hj0
        simp only [List.getElem?_cons_zero, Option.some.injEq] at hg
        subst hg
        decide),
   C9_match_phrase_smallest_index.2 (asciiBytes "assword ncorrect $ ")
      (by decide) (by decide)⟩

/-- Claim C8 counterexample: logged in, with a script whose prompt chunk
is followed by the echoed output `[104, 105]`, `write` captures exactly
those raw bytes from its one extra receive, but the value produced by
`write` itself is `none` (the Python method has no return statement), not
the received bytes as the claim states. -/
theorem C8_counterexample :
    (write true "ls" [asciiBytes "$ ", [104, 105]]).captured = some [104, 105] ∧
    (write true "ls" [asciiBytes "$ ", [104, 105]]).ret = none ∧
    (write true "ls" [asciiBytes "$ ", [104, 105]]).ret ≠ some [104, 105] := by
  decide

/-- Claim C8 (amended): calling `write` while logged in waits for a
prompt, sends the command with a newline appended as its final send, then
performs exactly one further receive and captures its raw bytes with no
parsing or trimming; the bytes are only exposed through the debug event,
the method itself returning `none` rather than them. -/
theorem C8_write_sends_then_one_recv (cmd : String) (chunks : List (List Nat))
    (i : Nat) (p : List Nat) (s : List (List Nat)) (k : Nat) (out : List Nat)
    (hexp : expectRun promptList chunks = .matched i p s k)
    (hout : (chunks.drop k).head? = some out) :
    write true cmd chunks =
      { status := .ok, sent := s ++ [asciiBytes (cmd ++ "\n")], recvs := k + 1,
        captured := some out, ret := none, loggedInAfter := true } := by
  simp [write, hexp, hout]

/-- Witness for the amended C8 at a concrete script: the prompt chunk is
consumed, the command plus newline is sent, and the single further
receive is captured raw while `write` still produces `none`. -/
theorem C8_witness :
    write true "ls" [asciiBytes ":x", [104, 105, 10]] =
      { status := .ok, sent := [asciiBytes ("ls" ++ "\n")], recvs := 2,
        captured := some [104, 105, 10], ret := none, loggedInAfter := true } :=
  C8_write_sends_then_one_recv "ls" [asciiBytes ":x", [104, 105, 10]] 0
    (asciiBytes ":") [] 1 [104, 105, 10] (by decide) (by decide)

end Telpy
